import Mathlib

/-!
Verification development for the AutomatedHomeV2 rule-driven dispatch engine.

The Python sources (`RuleEngineWrapper/__init__.py`, `ah_master.py`) are
shallowly embedded below: Python values become the inductive `PyVal`,
exceptions become `Except PyErr`, the stdlib parsing routines `int()`,
`float()` and `ast.literal_eval` are modelled as total Lean parsers over
`List Char`, and the external `rule_engine` matcher is a parameter of the
evaluator.  Stateful handlers (`on_message`, the rule-file reload loop)
become explicit state-passing functions.
-/

namespace AutomatedHome

/-- Python runtime values that occur in this program: ints, floats
(modelled as exact rationals), bools, strings, `None`, lists and dicts
(insertion-ordered association lists). -/
inductive PyVal : Type where
  | vInt (n : Int)
  | vFloat (q : Rat)
  | vBool (b : Bool)
  | vStr (s : String)
  | vNone
  | vList (xs : List PyVal)
  | vDict (xs : List (PyVal × PyVal))
deriving Repr

/-- The Python exception classes raised by the embedded code paths. -/
inductive PyErr : Type where
  | valueError
  | attributeError
  | typeError
  | nameError
deriving DecidableEq, Repr

/-- The single-quote character (written via its code point so that string
literals below stay plain). -/
def sq : Char := Char.ofNat 39

/-- Opening curly brace character. -/
def lbr : Char := Char.ofNat 123

/-- Closing curly brace character. -/
def rbr : Char := Char.ofNat 125

/-- ASCII decimal digit test (what Python `int()`/`float()` accept as digits). -/
def isDigitCh (c : Char) : Bool := 48 ≤ c.toNat && c.toNat ≤ 57

/-- Python `str.strip()` whitespace: space, tab, newline, vertical tab,
form feed, carriage return. -/
def isPySpace (c : Char) : Bool :=
  c.toNat = 32 || c.toNat = 9 || c.toNat = 10 || c.toNat = 11 || c.toNat = 12 || c.toNat = 13

/-- Python `str.lower()` on one character (ASCII range; the topics and
payloads this program handles are ASCII). -/
def pyCharLower (c : Char) : Char :=
  if 65 ≤ c.toNat && c.toNat ≤ 90 then Char.ofNat (c.toNat + 32) else c

/-- Python `str.lower()`. -/
def pyLower (s : String) : String := String.mk (s.data.map pyCharLower)

/-- Strip Python whitespace from both ends of a character list. -/
def stripL (cs : List Char) : List Char :=
  ((cs.dropWhile isPySpace).reverse.dropWhile isPySpace).reverse

/-- Value of a digit string (assuming all characters are digits). -/
def digitsToNat (cs : List Char) : Nat :=
  cs.foldl (fun acc c => 10 * acc + (c.toNat - 48)) 0

/-- A non-empty all-digit string, or failure. -/
def natOfDigits (cs : List Char) : Option Nat :=
  if cs ≠ [] && cs.all isDigitCh then some (digitsToNat cs) else none

/-- Model of Python `int(s)` on a string: strip whitespace, optional
sign, then a non-empty run of decimal digits; anything else raises
`ValueError`, modelled as `none`.  (Underscore digit grouping and
non-ASCII digits are not used by this program and are not modelled.) -/
def pyIntParse (s : String) : Option Int :=
  match stripL s.data with
  | [] => none
  | c :: cs =>
    if c = '+' then (natOfDigits cs).map (fun n => (n : Int))
    else if c = '-' then (natOfDigits cs).map (fun n => -(n : Int))
    else (natOfDigits (c :: cs)).map (fun n => (n : Int))

/-- `10 ^ n` as a rational. -/
def pow10 (n : Nat) : Rat := ((10 ^ n : Nat) : Rat)

/-- The rational value of a parsed decimal float: sign, integer part,
fractional digits value and count, exponent sign and value.  Kept as a
separate constructor so that parsing itself stays a pure `Nat`
computation. -/
def ratOfParts (neg : Bool) (ip fp fdigits : Nat) (eneg : Bool) (e : Nat) : Rat :=
  let mant : Rat := (ip : Rat) + (fp : Rat) / pow10 fdigits
  let m : Rat := if neg then -mant else mant
  if eneg then m / pow10 e else m * pow10 e

/-- An exponent suffix `e/E [sign] digits`: returns the sign, the
exponent value, and the unconsumed suffix. -/
def expSuffix (cs : List Char) : Option (Bool × Nat × List Char) :=
  match cs with
  | c :: rest =>
    if c = 'e' ∨ c = 'E' then
      let sr : Bool × List Char :=
        match rest with
        | d :: rs => if d = '-' then (true, rs) else if d = '+' then (false, rs) else (false, rest)
        | [] => (false, rest)
      let eds := sr.2.takeWhile isDigitCh
      if eds ≠ [] then some (sr.1, digitsToNat eds, sr.2.drop eds.length) else none
    else none
  | [] => none

/-- Model of Python `float(s)` on a string: strip whitespace, optional
sign, a mantissa `digits [. digits]` or `. digits`, and an optional
exponent; the whole string must be consumed.  The value is modelled as
an exact rational (`inf`/`nan` spellings are not modelled; every string
they would accept is rejected here and also fails the period/exponent
test in `is_float`). -/
def pyFloatParse (s : String) : Option Rat :=
  let cs := stripL s.data
  let sr : Bool × List Char :=
    match cs with
    | c :: rest => if c = '-' then (true, rest) else if c = '+' then (false, rest) else (false, cs)
    | [] => (false, cs)
  let neg := sr.1
  let cs1 := sr.2
  let ds1 := cs1.takeWhile isDigitCh
  let cs2 := cs1.drop ds1.length
  let fr : List Char × List Char :=
    match cs2 with
    | c :: rest =>
      if c = '.' then (rest.takeWhile isDigitCh, rest.drop (rest.takeWhile isDigitCh).length)
      else ([], cs2)
    | [] => ([], cs2)
  let ds2 := fr.1
  let cs3 := fr.2
  if ds1.length + ds2.length = 0 then none
  else
    match cs3 with
    | [] => some (ratOfParts neg (digitsToNat ds1) (digitsToNat ds2) ds2.length false 0)
    | _ =>
      match expSuffix cs3 with
      | some (eneg, e, []) => some (ratOfParts neg (digitsToNat ds1) (digitsToNat ds2) ds2.length eneg e)
      | _ => none

/-- One escape sequence inside a Python string literal (the program only
round-trips simple quoted strings; unknown escapes keep the backslash,
as Python does). -/
def escCh (c : Char) : List Char :=
  if c = 'n' then [Char.ofNat 10]
  else if c = 't' then [Char.ofNat 9]
  else if c = '\\' then ['\\']
  else if c = sq then [sq]
  else if c = '"' then ['"']
  else ['\\', c]

/-- Body of a quoted string literal, up to the closing quote `q`. -/
def strBody (q : Char) : Nat → List Char → Option (List Char × List Char)
  | 0, _ => none
  | _, [] => none
  | fuel + 1, c :: cs =>
    if c = q then some ([], cs)
    else if c = '\\' then
      match cs with
      | [] => none
      | e :: cs2 => (strBody q fuel cs2).map (fun r => (escCh e ++ r.1, r.2))
    else (strBody q fuel cs).map (fun r => (c :: r.1, r.2))

/-- Numeric literal inside `ast.literal_eval` input: digits with an
optional fractional part and optional exponent; an integer literal when
neither is present.  Returns the value and the unconsumed suffix. -/
def numLit (cs : List Char) : Option (PyVal × List Char) :=
  let ds1 := cs.takeWhile isDigitCh
  let cs1 := cs.drop ds1.length
  match cs1 with
  | '.' :: rest =>
    let ds2 := rest.takeWhile isDigitCh
    let cs2 := rest.drop ds2.length
    if ds1.length + ds2.length = 0 then none
    else
      match expSuffix cs2 with
      | some (eneg, e, cs3) =>
        some (.vFloat (ratOfParts false (digitsToNat ds1) (digitsToNat ds2) ds2.length eneg e), cs3)
      | none =>
        some (.vFloat (ratOfParts false (digitsToNat ds1) (digitsToNat ds2) ds2.length false 0), cs2)
  | _ =>
    if ds1 = [] then none
    else
      match expSuffix cs1 with
      | some (eneg, e, cs3) =>
        some (.vFloat (ratOfParts false (digitsToNat ds1) 0 0 eneg e), cs3)
      | none => some (.vInt (digitsToNat ds1), cs1)

/-- Negate a numeric literal (the only values a unary sign may precede
in `ast.literal_eval`). -/
def negVal : PyVal → PyVal
  | .vInt n => .vInt (-n)
  | .vFloat q => .vFloat (-q)
  | v => v

mutual

/-- Model of the expression fragment accepted by `ast.literal_eval`,
restricted to the literal forms this program's data uses: dicts, lists,
single- and double-quoted strings, numbers with an optional single
unary sign, `True`, `False`, `None`.  Identifiers (for example `hello`
or `true`) are rejected, as `ast.literal_eval` rejects them. -/
def pyLit : Nat → List Char → Option (PyVal × List Char)
  | 0, _ => none
  | fuel + 1, cs0 =>
    let cs := cs0.dropWhile isPySpace
    match cs with
    | [] => none
    | c :: rest =>
      if c = lbr then pyDictEntries fuel rest []
      else if c = '[' then pyListItems fuel rest []
      else if c = sq ∨ c = '"' then
        (strBody c (cs0.length + 2) rest).map (fun r => (.vStr (String.mk r.1), r.2))
      else if c = 'T' ∧ rest.take 3 = ['r', 'u', 'e'] then some (.vBool true, rest.drop 3)
      else if c = 'F' ∧ rest.take 4 = ['a', 'l', 's', 'e'] then some (.vBool false, rest.drop 4)
      else if c = 'N' ∧ rest.take 3 = ['o', 'n', 'e'] then some (.vNone, rest.drop 3)
      else if c = '-' ∨ c = '+' then
        match numLit (rest.dropWhile isPySpace) with
        | some (v, cs2) => some (if c = '-' then negVal v else v, cs2)
        | none => none
      else numLit cs

/-- Comma-separated items of a list literal, after the opening bracket. -/
def pyListItems : Nat → List Char → List PyVal → Option (PyVal × List Char)
  | 0, _, _ => none
  | fuel + 1, cs0, acc =>
    let cs := cs0.dropWhile isPySpace
    match cs with
    | [] => none
    | c :: rest =>
      if c = ']' then some (.vList acc.reverse, rest)
      else
        match pyLit fuel cs with
        | none => none
        | some (v, cs1) =>
          match cs1.dropWhile isPySpace with
          | ',' :: cs2 => pyListItems fuel cs2 (v :: acc)
          | ']' :: cs2 => some (.vList (v :: acc).reverse, cs2)
          | _ => none

/-- Comma-separated `key: value` entries of a dict literal, after the
opening brace. -/
def pyDictEntries : Nat → List Char → List (PyVal × PyVal) → Option (PyVal × List Char)
  | 0, _, _ => none
  | fuel + 1, cs0, acc =>
    let cs := cs0.dropWhile isPySpace
    match cs with
    | [] => none
    | c :: rest =>
      if c = rbr then some (.vDict acc.reverse, rest)
      else
        match pyLit fuel cs with
        | none => none
        | some (k, cs1) =>
          match cs1.dropWhile isPySpace with
          | ':' :: cs2 =>
            match pyLit fuel cs2 with
            | none => none
            | some (v, cs3) =>
              match cs3.dropWhile isPySpace with
              | ',' :: cs4 => pyDictEntries fuel cs4 ((k, v) :: acc)
              | d :: cs4 => if d = rbr then some (.vDict ((k, v) :: acc).reverse, cs4) else none
              | _ => none
          | _ => none

end

/-- Model of `ast.literal_eval(s)` for a string argument: parse one
literal and require the whole input to be consumed; `none` models the
`ValueError`/`SyntaxError` raised on rejection. -/
def pyLiteralEval (s : String) : Option PyVal :=
  match pyLit (s.data.length + 2) s.data with
  | some (v, rest) => if rest.dropWhile isPySpace = [] then some v else none
  | none => none

/-- `RuleEngineWrapper._is_int`: already an `int`, or a non-empty string
that `int()` accepts and that contains neither a period nor a lowercase
`e` (the source checks `'e' not in s` without lowercasing). -/
def is_int : PyVal → Bool
  | .vInt _ => true
  | .vStr s =>
    if s.data.length > 0 then
      (pyIntParse s).isSome && !(s.data.contains '.') && !(s.data.contains 'e')
    else false
  | _ => false

/-- `RuleEngineWrapper._is_float`: already a `float`, or a non-empty
string that `float()` accepts and that contains a period or an `e`/`E`
(the source checks `'e' in s.lower()`). -/
def is_float : PyVal → Bool
  | .vFloat _ => true
  | .vStr s =>
    if s.data.length > 0 then
      (pyFloatParse s).isSome && (s.data.contains '.' || (pyLower s).data.contains 'e')
    else false
  | _ => false

/-- `RuleEngineWrapper._is_bool`: already a `bool`, or a non-empty
string whose lowercasing is `true` or `false`. -/
def is_bool : PyVal → Bool
  | .vBool _ => true
  | .vStr s =>
    if s.data.length > 0 then (pyLower s == "true") || (pyLower s == "false") else false
  | _ => false

/-- `RuleEngineWrapper._is_dict`: `True` for a `dict`; for a string,
`False` exactly when `ast.literal_eval` rejects it; for every other
type the source falls through to its final `return True`. -/
def is_dict : PyVal → Bool
  | .vDict _ => true
  | .vStr s => (pyLiteralEval s).isSome
  | _ => true

/-- `RuleEngineWrapper.get_var`, the type-coercion operation.  Each
branch mirrors the source: the `bool` branch calls `s.lower()`, which
raises `AttributeError` on a non-string; the `dict` branch calls
`ast.literal_eval(s)`, which raises `ValueError` on a non-string
argument. -/
def get_var (v : PyVal) : Except PyErr PyVal :=
  if is_int v then
    match v with
    | .vInt n => .ok (.vInt n)
    | .vStr s => .ok (.vInt ((pyIntParse s).getD 0))
    | _ => .error .typeError
  else if is_float v then
    match v with
    | .vFloat q => .ok (.vFloat q)
    | .vStr s => .ok (.vFloat ((pyFloatParse s).getD 0))
    | _ => .error .typeError
  else if is_bool v then
    match v with
    | .vStr s => .ok (.vBool (pyLower s == "true"))
    | _ => .error .attributeError
  else if is_dict v then
    match v with
    | .vStr s =>
      match pyLiteralEval s with
      | some w => .ok w
      | none => .error .valueError
    | _ => .error .valueError
  else .ok v

/-- `RuleEngineWrapper._preprocess_rule`: replace every path separator
with an underscore (Python `str.replace` is per-character here). -/
def preprocessRule (s : String) : String :=
  String.mk (s.data.map (fun c => if c = '/' then '_' else c))

/-- Totalized `get_var` on a string, used where the source applies
`get_var` to dictionary values that are always strings; Lean's totality
needs a default arm, and `get_var_vStr_ok` below proves the error arm
unreachable. -/
def getVarStr (s : String) : PyVal :=
  match get_var (.vStr s) with
  | .ok v => v
  | .error _ => .vStr s

/-- `RuleEngineWrapper._preprocess_data`: preprocess every topic key
and coerce every raw value. -/
def preprocess_data (data : List (String × String)) : List (String × PyVal) :=
  data.map (fun kv => (preprocessRule kv.1, getVarStr kv.2))

/-- `p` is a prefix of `s` (character lists). -/
def isPrefixList : List Char → List Char → Bool
  | [], _ => true
  | _ :: _, [] => false
  | p :: ps, c :: cs => p = c && isPrefixList ps cs

/-- Python substring containment `pat in s` on character lists; the
empty pattern is contained in everything. -/
def containsSub : List Char → List Char → Bool
  | pat, [] => isPrefixList pat []
  | pat, c :: cs => isPrefixList pat (c :: cs) || containsSub pat cs

/-- Python `s.startswith(p)`. -/
def startsWithPy (s p : String) : Bool := isPrefixList p.data s.data

/-- Outcome of handing one preprocessed rule expression to the external
`rule_engine` matcher: a syntax error at `Rule()` construction, a symbol
resolution error at `matches()`, any other exception, or a boolean
verdict.  The evaluator is parametric in this collaborator (spec section
9 models it as a pluggable boolean-predicate capability). -/
inductive MatchOutcome : Type where
  | syntaxError
  | symbolError
  | otherError
  | ok (b : Bool)

/-- The external boolean-expression matcher, abstracted. -/
def Matcher : Type := String → List (String × PyVal) → MatchOutcome

/-- Look up a string key in a Python dict (association list). -/
def lookupStrKey : List (PyVal × PyVal) → String → Option PyVal
  | [], _ => none
  | (key, v) :: rest, k =>
    match key with
    | .vStr s => if s = k then some v else lookupStrKey rest k
    | _ => lookupStrKey rest k

/-- `rule_info['rule']` and `rule_info['actions']`: both are read before
the per-rule `try`, and `_preprocess_rule` needs the rule to be a
string; any failure (`rule_info` not a dict, missing key, non-string
rule) raises outside the per-rule handlers. -/
def extractRule (ri : PyVal) : Option (String × PyVal) :=
  match ri with
  | .vDict entries =>
    match lookupStrKey entries "rule", lookupStrKey entries "actions" with
    | some (.vStr rs), some acts => some (rs, acts)
    | _, _ => none
  | _ => none

/-- Python iteration `for x in v`: lists yield elements, dicts yield
keys, strings yield one-character strings; other values raise
`TypeError`. -/
def iterItems : PyVal → Option (List PyVal)
  | .vList xs => some xs
  | .vDict es => some (es.map Prod.fst)
  | .vStr s => some (s.data.map (fun c => .vStr (String.mk [c])))
  | _ => none

/-- The rule loop of `evaluate_rules`, instrumented: returns the
collected action output, the list of preprocessed expressions actually
handed to the matcher (in order), and whether an uncaught exception
aborted the pass (reaching the function-level `except`).  Per-rule
syntax and symbol-resolution errors are caught and skip only their rule;
any other exception aborts with the output collected so far discarded
into the function-level handler, which returns it. -/
def evalLoop (m : Matcher) (pdata : List (String × PyVal)) (pfilter : String) :
    List PyVal → List PyVal × List String × Bool
  | [] => ([], [], false)
  | ri :: rest =>
    match extractRule ri with
    | none => ([], [], true)
    | some (rs, acts) =>
      let rstr := preprocessRule rs
      if containsSub pfilter.data rstr.data then
        match m rstr pdata with
        | .syntaxError =>
          let r := evalLoop m pdata pfilter rest
          (r.1, rstr :: r.2.1, r.2.2)
        | .symbolError =>
          let r := evalLoop m pdata pfilter rest
          (r.1, rstr :: r.2.1, r.2.2)
        | .otherError => ([], [rstr], true)
        | .ok true =>
          match iterItems acts with
          | some items =>
            let r := evalLoop m pdata pfilter rest
            (items ++ r.1, rstr :: r.2.1, r.2.2)
          | none => ([], [rstr], true)
        | .ok false =>
          let r := evalLoop m pdata pfilter rest
          (r.1, rstr :: r.2.1, r.2.2)
      else evalLoop m pdata pfilter rest

/-- `RuleEngineWrapper.evaluate_rules` with instrumentation: output,
trace of matcher-evaluated expressions, abort flag.  `rules = none` is
Python `self.rules is None` (no rules to check); iterating a
non-iterable rules value raises into the function-level handler. -/
def evaluate_rules_full (m : Matcher) (rules : Option PyVal)
    (data : List (String × String)) (rule_filter : String) :
    List PyVal × List String × Bool :=
  match rules with
  | none => ([], [], false)
  | some r =>
    match iterItems r with
    | none => ([], [], true)
    | some ris => evalLoop m (preprocess_data data) (preprocessRule rule_filter) ris

/-- `RuleEngineWrapper.evaluate_rules`: the returned action list. -/
def evaluate_rules (m : Matcher) (rules : Option PyVal)
    (data : List (String × String)) (rule_filter : String) : List PyVal :=
  (evaluate_rules_full m rules data rule_filter).1

/-- The expressions handed to the matcher during one evaluation pass. -/
def evalTrace (m : Matcher) (rules : Option PyVal)
    (data : List (String × String)) (rule_filter : String) : List String :=
  (evaluate_rules_full m rules data rule_filter).2.1

/-- Python `str(n)` for an integer. -/
def intReprStr (n : Int) : String :=
  if n < 0 then "-" ++ Nat.repr n.natAbs else Nat.repr n.natAbs

/-- Python `str(x)` for a float, approximated on exact decimals (the
claims never render floats; Python's shortest-roundtrip float printing
is floating-point behaviour and out of scope). -/
def floatReprStr (q : Rat) : String :=
  if q.den = 1 then intReprStr q.num ++ ".0"
  else intReprStr q.num ++ "/" ++ Nat.repr q.den

mutual

/-- Python `str()`/`repr()` of a value as this program prints payloads:
dicts and lists render their elements with `repr`, strings are
single-quoted. -/
def pyRepr : PyVal → String
  | .vInt n => intReprStr n
  | .vFloat q => floatReprStr q
  | .vBool b => if b then "True" else "False"
  | .vStr s => String.mk ([sq] ++ s.data ++ [sq])
  | .vNone => "None"
  | .vList xs => "[" ++ pyReprItems xs ++ "]"
  | .vDict xs => String.mk [lbr] ++ pyReprEntries xs ++ String.mk [rbr]

/-- Comma-separated list elements. -/
def pyReprItems : List PyVal → String
  | [] => ""
  | [x] => pyRepr x
  | x :: y :: rest => pyRepr x ++ ", " ++ pyReprItems (y :: rest)

/-- Comma-separated `key: value` dict entries. -/
def pyReprEntries : List (PyVal × PyVal) → String
  | [] => ""
  | [(k, v)] => pyRepr k ++ ": " ++ pyRepr v
  | (k, v) :: e :: rest => pyRepr k ++ ": " ++ pyRepr v ++ ", " ++ pyReprEntries (e :: rest)

end

/-- The action-publishing loop of `MQTTInterface.on_message`: for each
matched action, coerce it with `get_var`, read its `topic` and `params`
entries, render the params with quotes doubled, and enqueue the publish
request.  Any exception (coercion failure, non-dict action, missing
key) propagates to the handler-level `except`, abandoning the remaining
actions and the rest of the handler; the flag reports that abort. -/
def enqueueActions : List PyVal → List (PyVal × String) × Bool
  | [] => ([], false)
  | a :: rest =>
    match get_var a with
    | .error _ => ([], true)
    | .ok ad =>
      match ad with
      | .vDict entries =>
        match lookupStrKey entries "topic", lookupStrKey entries "params" with
        | some t, some p =>
          let r := enqueueActions rest
          ((t, (pyRepr p).replace (String.mk [sq]) "\"") :: r.1, r.2)
        | _, _ => ([], true)
      | _ => ([], true)

/-- Association-list lookup for the `messages` state store. -/
def lookupA : List (String × String) → String → Option String
  | [], _ => none
  | (k, v) :: rest, key => if k = key then some v else lookupA rest key

/-- Insert-or-assign for the `messages` state store, preserving Python
dict insertion order (new keys append at the end). -/
def updateA : List (String × String) → String → String → List (String × String)
  | [], key, val => [(key, val)]
  | (k, v) :: rest, key, val =>
    if k = key then (k, val) :: rest else (k, v) :: updateA rest key val

/-- Insert-or-assign on a Python dict with a string key
(`ping_dict[device] = timestamp`). -/
def dictInsertStr : List (PyVal × PyVal) → String → PyVal → List (PyVal × PyVal)
  | [], key, val => [(.vStr key, val)]
  | (k, v) :: rest, key, val =>
    match k with
    | .vStr s => if s = key then (k, val) :: rest else (k, v) :: dictInsertStr rest key val
    | _ => (k, v) :: dictInsertStr rest key val

/-- The reserved liveness topic (constructor default `topic_ping`). -/
def topic_ping : String := "/global/ping/devices"

/-- `topic.rsplit(sep, 1)[0]` for the path separator: everything before
the last separator, or the whole string when none occurs. -/
def deviceOf (topic : String) : String :=
  if topic.data.contains '/' then
    String.mk (((topic.data.reverse.dropWhile (fun c => c ≠ '/')).drop 1).reverse)
  else topic

/-- The mutable state `MQTTInterface.on_message` touches: the
`messages` store, the persistence queue and the publish queue. -/
structure MState where
  messages : List (String × String)
  db_queue : List (String × String)
  publish_queue : List (PyVal × String)
deriving Repr

/-- `MQTTInterface.on_message`.  `decoded = none` models a payload
whose `decode()` raises: the handler-level `except` then evaluates an
f-string referencing the unbound local `payload`, so the handler itself
raises `NameError` (`UnboundLocalError`).  After a successful decode
every exception inside the `try` is caught by that handler, leaving the
partially updated state in place, so the result is `ok` with whatever
mutations had already happened.  The rule engine is present (the master
always constructs one); `rules`/`m` stand for its loaded rule set and
the external matcher, `now` for the current timestamp string. -/
def on_message (m : Matcher) (rules : Option PyVal) (now : String) (st : MState)
    (topic : String) (decoded : Option String) : Except PyErr MState :=
  match decoded with
  | none => .error .nameError
  | some payload =>
    if !(startsWithPy topic "/") then .ok st
    else if lookupA st.messages topic = some payload then .ok st
    else
      let msgs1 := updateA st.messages topic payload
      let ea := enqueueActions (evaluate_rules m rules msgs1 topic)
      let pq1 := st.publish_queue ++ ea.1
      if ea.2 then .ok ⟨msgs1, st.db_queue, pq1⟩
      else if startsWithPy topic "/global/" then .ok ⟨msgs1, st.db_queue, pq1⟩
      else
        let db1 := st.db_queue ++ [(topic, payload)]
        let msgs2 :=
          if (lookupA msgs1 topic_ping).isSome then msgs1
          else updateA msgs1 topic_ping "\x7b\x7d"
        match pyLiteralEval ((lookupA msgs2 topic_ping).getD "") with
        | none => .ok ⟨msgs2, db1, pq1⟩
        | some pd =>
          match pd with
          | .vDict entries =>
            let pd1 := dictInsertStr entries (deviceOf topic) (.vStr now)
            .ok ⟨msgs2, db1, pq1 ++ [(.vStr topic_ping, pyRepr (.vDict pd1))]⟩
          | _ => .ok ⟨msgs2, db1, pq1⟩


/-- Witness fixture: a matcher that reports a syntax error on the
expression `bad` and matches every other expression. -/
def mSyntaxBad : Matcher := fun e _ => if e = "bad" then .syntaxError else .ok true

/-- Witness fixture: a well-formed rule entry with one action string. -/
def ruleOk (e a : String) : PyVal :=
  .vDict [(.vStr "rule", .vStr e), (.vStr "actions", .vList [.vStr a])]

/-- Witness fixture: a rule entry with no `rule` key, whose extraction
raises outside the per-rule handlers. -/
def badRule : PyVal := .vDict [(.vStr "nothing", .vNone)]

/-- The state of the rule repository's reload loop: the current rule
set (`self.rules`) and the last seen fingerprint
(`self.last_modified_time`). -/
structure RepoState where
  rules : Option PyVal
  last_modified_time : Option Nat
deriving Repr

/-- `RuleEngineWrapper.load_rules`: `rules` starts as `None`; reading
and parsing the YAML file either binds it to the document's `rules`
entry or raises before the assignment, in which case the caught
exception leaves it `None`.  `doc = none` models an unreadable or
unparsable file (and the `yaml_file is None` case). -/
def load_rules (doc : Option PyVal) : Option PyVal :=
  match doc with
  | none => none
  | some d =>
    match d with
    | .vDict entries =>
      match lookupStrKey entries "rules" with
      | some r => some r
      | none => none
    | _ => none

/-- One iteration of `RuleEngineWrapper.load_and_run` in which the
fingerprint read succeeds: on a first pass or a fingerprint change, the
current rule set is overwritten with whatever `load_rules` returns and
the fingerprint is recorded; otherwise nothing changes. -/
def load_and_run_step (st : RepoState) (mtime : Nat) (doc : Option PyVal) : RepoState :=
  if st.last_modified_time = none ∨ ¬ st.last_modified_time = some mtime then
    { rules := load_rules doc, last_modified_time := some mtime }
  else st


theorem get_var_vStr_ok (s : String) : ∃ v, get_var (.vStr s) = Except.ok v := by
  by_cases h1 : is_int (.vStr s) = true
  · exact ⟨.vInt ((pyIntParse s).getD 0), by simp [get_var, h1]⟩
  · by_cases h2 : is_float (.vStr s) = true
    · exact ⟨.vFloat ((pyFloatParse s).getD 0), by simp [get_var, h1, h2]⟩
    · by_cases h3 : is_bool (.vStr s) = true
      · exact ⟨.vBool (pyLower s == "true"), by simp [get_var, h1, h2, h3]⟩
      · by_cases h4 : is_dict (.vStr s) = true
        · have h4s : (pyLiteralEval s).isSome = true := by simpa [is_dict] using h4
          obtain ⟨w, hw⟩ := Option.isSome_iff_exists.mp h4s
          exact ⟨w, by simp [get_var, h1, h2, h3, h4, hw]⟩
        · exact ⟨.vStr s, by simp [get_var, h1, h2, h3, h4]⟩

theorem getVarStr_spec (s : String) : get_var (.vStr s) = .ok (getVarStr s) := by
  obtain ⟨v, hv⟩ := get_var_vStr_ok s
  simp [getVarStr, hv]

theorem pyCharLower_of_lt {c : Char} (h : c.toNat < 65) : pyCharLower c = c := by
  unfold pyCharLower
  rw [if_neg]
  simp only [Bool.and_eq_true, decide_eq_true_eq, not_and]
  omega

theorem mem_pyLower {s : String} {c : Char} (hc : c ∈ s.data) :
    pyCharLower c ∈ (pyLower s).data := by
  simp only [pyLower]
  exact List.mem_map_of_mem _ hc

theorem chars_ge65 {s w : String} (h : pyLower s = w)
    (hw : ∀ t ∈ w.data, 97 ≤ t.toNat) : ∀ c ∈ s.data, 65 ≤ c.toNat := by
  intro c hc
  by_contra hlt
  push_neg at hlt
  have h1 : pyCharLower c = c := pyCharLower_of_lt hlt
  have h2 : pyCharLower c ∈ (pyLower s).data := mem_pyLower hc
  rw [h, h1] at h2
  have := hw c h2
  omega

theorem dropWhile_eq_self_of {p : Char → Bool} {cs : List Char}
    (h : ∀ c ∈ cs, p c = false) : cs.dropWhile p = cs := by
  cases cs with
  | nil => rfl
  | cons c rest => simp [List.dropWhile_cons, h c (by simp)]

theorem stripL_eq_self {cs : List Char} (h : ∀ c ∈ cs, 65 ≤ c.toNat) :
    stripL cs = cs := by
  have hns : ∀ c ∈ cs, isPySpace c = false := by
    intro c hc
    have := h c hc
    simp [isPySpace]
    omega
  unfold stripL
  rw [dropWhile_eq_self_of hns]
  rw [dropWhile_eq_self_of (fun c hc => hns c (by simpa using hc))]
  simp

theorem pyIntParse_none_of {s : String} (hne : s.data ≠ [])
    (h : ∀ c ∈ s.data, 65 ≤ c.toNat) : pyIntParse s = none := by
  unfold pyIntParse
  rw [stripL_eq_self h]
  rcases hcs : s.data with _ | ⟨c, rest⟩
  · exact absurd hcs hne
  · have hc : 65 ≤ c.toNat := h c (by rw [hcs]; simp)
    have hplus : ¬ c = '+' := by rintro rfl; exact absurd hc (by decide)
    have hminus : ¬ c = '-' := by rintro rfl; exact absurd hc (by decide)
    have hd : isDigitCh c = false := by simp [isDigitCh]; omega
    have hnone : natOfDigits (c :: rest) = none := by
      unfold natOfDigits
      rw [if_neg]
      simp [hd]
    simp [hplus, hminus, hnone]

theorem pyFloatParse_none_of {s : String} (hne : s.data ≠ [])
    (h : ∀ c ∈ s.data, 65 ≤ c.toNat) : pyFloatParse s = none := by
  unfold pyFloatParse
  rw [stripL_eq_self h]
  rcases hcs : s.data with _ | ⟨c, rest⟩
  · exact absurd hcs hne
  · have hc : 65 ≤ c.toNat := h c (by rw [hcs]; simp)
    have hminus : ¬ c = '-' := by rintro rfl; exact absurd hc (by decide)
    have hplus : ¬ c = '+' := by rintro rfl; exact absurd hc (by decide)
    have hdot : ¬ c = '.' := by rintro rfl; exact absurd hc (by decide)
    have hd : isDigitCh c = false := by simp [isDigitCh]; omega
    simp [List.takeWhile_cons, hd, hdot, hminus, hplus]

theorem bool_str_guards {s : String} (hb : is_bool (.vStr s) = true) :
    is_int (.vStr s) = false ∧ is_float (.vStr s) = false := by
  simp only [is_bool] at hb
  rw [if_pos] at hb
  case hc =>
    by_contra hl
    rw [if_neg hl] at hb
    exact Bool.false_ne_true hb
  have hlow : pyLower s = "true" ∨ pyLower s = "false" := by
    rcases Bool.or_eq_true_iff.mp hb with h | h
    · exact Or.inl (eq_of_beq h)
    · exact Or.inr (eq_of_beq h)
  have hne : s.data ≠ [] := by
    intro e
    have h4 : (pyLower s).data = s.data.map pyCharLower := rfl
    rcases hlow with hl | hl <;> rw [hl] at h4 <;> rw [e] at h4 <;> simp at h4
  have hw : ∀ c ∈ s.data, 65 ≤ c.toNat := by
    rcases hlow with h | h
    · exact chars_ge65 h (by decide)
    · exact chars_ge65 h (by decide)
  constructor
  · simp [is_int, pyIntParse_none_of hne hw]
  · simp [is_float, pyFloatParse_none_of hne hw]

/-- C1: type coercion follows the stated precedence with first match
winning: `coerce("5")` is the integer 5, `coerce("5.0")` the real 5.0,
`coerce("True")`/`coerce("false")` booleans, `coerce("{'a': 1}")` (the
quoted literal below spells that string) the structured value, and
`coerce("hello")` the unchanged string; moreover any string accepted by
the integer test coerces to an integer (never a real), and any string
whose lowercasing is `true`/`false` coerces to a boolean (never a
structured literal). -/
theorem C1_coerce_precedence :
    get_var (.vStr "5") = .ok (.vInt 5) ∧
    get_var (.vStr "5.0") = .ok (.vFloat 5) ∧
    get_var (.vStr "True") = .ok (.vBool true) ∧
    get_var (.vStr "false") = .ok (.vBool false) ∧
    get_var (.vStr "\x7b\x27a\x27: 1\x7d") = .ok (.vDict [(.vStr "a", .vInt 1)]) ∧
    get_var (.vStr "hello") = .ok (.vStr "hello") ∧
    (∀ s : String, is_int (.vStr s) = true →
      get_var (.vStr s) = .ok (.vInt ((pyIntParse s).getD 0))) ∧
    (∀ s : String, is_bool (.vStr s) = true →
      get_var (.vStr s) = .ok (.vBool (pyLower s == "true"))) := by
  refine ⟨rfl, ?_, rfl, rfl, rfl, rfl, ?_, ?_⟩
  · have h : get_var (.vStr "5.0") = .ok (.vFloat (ratOfParts false 5 0 1 false 0)) := rfl
    rw [h]
    norm_num [ratOfParts, pow10]
  · intro s hs
    simp [get_var, hs]
  · intro s hb
    obtain ⟨hi, hf⟩ := bool_str_guards hb
    simp [get_var, hi, hf, hb]

/-- Witness for C1: the integer-guard conjunct applied at `"42"` and the
boolean-guard conjunct applied at `"TRUE"`. -/
theorem C1_coerce_precedence_witness :
    get_var (.vStr "42") = .ok (.vInt 42) ∧ get_var (.vStr "TRUE") = .ok (.vBool true) := by
  constructor
  · exact (C1_coerce_precedence.2.2.2.2.2.2.1 "42" rfl).trans rfl
  · exact (C1_coerce_precedence.2.2.2.2.2.2.2 "TRUE" rfl).trans rfl

/-- C5: the claim that no exception escapes `coerce` and that typed
inputs pass through unchanged fails on the code: a boolean input
reaches `s.lower()` and raises `AttributeError`, and a dict input
reaches `ast.literal_eval(s)` and raises `ValueError`.  String, int and
float inputs do behave as claimed: no string input errors, and int and
float inputs pass through unchanged. -/
theorem C5_coerce_typed_inputs :
    get_var (.vBool true) = .error .attributeError ∧
    get_var (.vBool false) = .error .attributeError ∧
    get_var (.vDict [(.vStr "a", .vInt 1)]) = .error .valueError ∧
    (∀ s : String, ∃ v, get_var (.vStr s) = .ok v) ∧
    (∀ n : Int, get_var (.vInt n) = .ok (.vInt n)) ∧
    (∀ q : Rat, get_var (.vFloat q) = .ok (.vFloat q)) := by
  refine ⟨rfl, rfl, rfl, get_var_vStr_ok, ?_, ?_⟩
  · intro n
    simp [get_var, is_int]
  · intro q
    simp [get_var, is_int, is_float]

/-- C2 counterexample: after a successful load (rules non-null,
fingerprint 100), a fingerprint change to 200 with a failing re-parse
leaves the current rule set null — the previous rule set is not kept,
contradicting the claim. -/
theorem C2_reload_failure_counterexample :
    (load_and_run_step ⟨some (.vList []), some 100⟩ 200 none).rules = none ∧
    (⟨some (.vList []), some 100⟩ : RepoState).rules ≠ none := by
  constructor
  · rfl
  · simp

/-- C2 amended: whenever the fingerprint differs from the recorded one
and re-parsing fails, the reload loop replaces the current rule set
with `None` (the evaluator then treats it as no rules) and records the
new fingerprint; the previous rule set is not retained. -/
theorem C2_reload_failure_overwrites (st : RepoState) (mtime : Nat)
    (hf : ¬ st.last_modified_time = some mtime) :
    load_and_run_step st mtime none = ⟨none, some mtime⟩ := by
  unfold load_and_run_step
  rw [if_pos (Or.inr hf)]
  rfl

/-- Witness for the amended C2 at a concrete state. -/
theorem C2_reload_failure_overwrites_witness :
    load_and_run_step ⟨some (.vList []), some 100⟩ 200 none = ⟨none, some 200⟩ :=
  C2_reload_failure_overwrites ⟨some (.vList []), some 100⟩ 200 (by simp)


theorem evalLoop_append (m : Matcher) (pdata : List (String × PyVal)) (pf : String)
    (xs ys : List PyVal) (h : (evalLoop m pdata pf xs).2.2 = false) :
    evalLoop m pdata pf (xs ++ ys) =
      ((evalLoop m pdata pf xs).1 ++ (evalLoop m pdata pf ys).1,
       (evalLoop m pdata pf xs).2.1 ++ (evalLoop m pdata pf ys).2.1,
       (evalLoop m pdata pf ys).2.2) := by
  induction xs with
  | nil => simp [evalLoop]
  | cons ri rest ih =>
    rcases hE : extractRule ri with _ | ⟨rs, acts⟩
    · simp [evalLoop, hE] at h
    · by_cases hc : containsSub pf.data (preprocessRule rs).data = true
      · rcases hm : m (preprocessRule rs) pdata with _ | _ | _ | b
        · have h2 : (evalLoop m pdata pf rest).2.2 = false := by
            simpa [evalLoop, hE, hc, hm] using h
          simp [evalLoop, hE, hc, hm, ih h2]
        · have h2 : (evalLoop m pdata pf rest).2.2 = false := by
            simpa [evalLoop, hE, hc, hm] using h
          simp [evalLoop, hE, hc, hm, ih h2]
        · simp [evalLoop, hE, hc, hm] at h
        · cases b
          · have h2 : (evalLoop m pdata pf rest).2.2 = false := by
              simpa [evalLoop, hE, hc, hm] using h
            simp [evalLoop, hE, hc, hm, ih h2]
          · rcases hIt : iterItems acts with _ | items
            · simp [evalLoop, hE, hc, hm, hIt] at h
            · have h2 : (evalLoop m pdata pf rest).2.2 = false := by
                simpa [evalLoop, hE, hc, hm, hIt] using h
              simp [evalLoop, hE, hc, hm, hIt, ih h2]
      · have hc2 : containsSub pf.data (preprocessRule rs).data = false := by
          simpa using hc
        have h2 : (evalLoop m pdata pf rest).2.2 = false := by
          simpa [evalLoop, hE, hc2] using h
        simp [evalLoop, hE, hc2, ih h2]

theorem evalLoop_trace_filtered (m : Matcher) (pdata : List (String × PyVal)) (pf : String) :
    ∀ L : List PyVal, ∀ e ∈ (evalLoop m pdata pf L).2.1,
      containsSub pf.data e.data = true := by
  intro L
  induction L with
  | nil => simp [evalLoop]
  | cons ri rest ih =>
    intro e he
    rcases hE : extractRule ri with _ | ⟨rs, acts⟩
    · simp [evalLoop, hE] at he
    · by_cases hc : containsSub pf.data (preprocessRule rs).data = true
      · rcases hm : m (preprocessRule rs) pdata with _ | _ | _ | b
        · simp only [evalLoop, hE, hc, hm, if_pos, List.mem_cons] at he
          rcases he with he | he
          · rw [he]; exact hc
          · exact ih e he
        · simp only [evalLoop, hE, hc, hm, if_pos, List.mem_cons] at he
          rcases he with he | he
          · rw [he]; exact hc
          · exact ih e he
        · simp only [evalLoop, hE, hc, hm, if_pos, List.mem_cons] at he
          simp at he
          rw [he]; exact hc
        · cases b
          · simp only [evalLoop, hE, hc, hm, if_pos, List.mem_cons] at he
            rcases he with he | he
            · rw [he]; exact hc
            · exact ih e he
          · rcases hIt : iterItems acts with _ | items
            · simp only [evalLoop, hE, hc, hm, hIt, if_pos, List.mem_cons] at he
              simp at he
              rw [he]; exact hc
            · simp only [evalLoop, hE, hc, hm, hIt, if_pos, List.mem_cons] at he
              rcases he with he | he
              · rw [he]; exact hc
              · exact ih e he
      · have hc2 : containsSub pf.data (preprocessRule rs).data = false := by
          simpa using hc
        refine ih e ?_
        simpa [evalLoop, hE, hc2] using he

theorem containsSub_nil (cs : List Char) : containsSub [] cs = true := by
  cases cs <;> simp [containsSub, isPrefixList]

theorem evalLoop_trace_len (m : Matcher) (pdata : List (String × PyVal)) (pf : String)
    (hpf : pf.data = []) :
    ∀ L : List PyVal, (evalLoop m pdata pf L).2.2 = false →
      (evalLoop m pdata pf L).2.1.length = L.length := by
  intro L
  induction L with
  | nil => simp [evalLoop]
  | cons ri rest ih =>
    intro h
    rcases hE : extractRule ri with _ | ⟨rs, acts⟩
    · simp [evalLoop, hE] at h
    · have hc : containsSub pf.data (preprocessRule rs).data = true := by
        rw [hpf]; exact containsSub_nil _
      rcases hm : m (preprocessRule rs) pdata with _ | _ | _ | b
      · have h2 : (evalLoop m pdata pf rest).2.2 = false := by
          simpa [evalLoop, hE, hc, hm] using h
        simp [evalLoop, hE, hc, hm, ih h2]
      · have h2 : (evalLoop m pdata pf rest).2.2 = false := by
          simpa [evalLoop, hE, hc, hm] using h
        simp [evalLoop, hE, hc, hm, ih h2]
      · simp [evalLoop, hE, hc, hm] at h
      · cases b
        · have h2 : (evalLoop m pdata pf rest).2.2 = false := by
            simpa [evalLoop, hE, hc, hm] using h
          simp [evalLoop, hE, hc, hm, ih h2]
        · rcases hIt : iterItems acts with _ | items
          · simp [evalLoop, hE, hc, hm, hIt] at h
          · have h2 : (evalLoop m pdata pf rest).2.2 = false := by
              simpa [evalLoop, hE, hc, hm, hIt] using h
            simp [evalLoop, hE, hc, hm, hIt, ih h2]

/-- C3: a per-rule failure — a syntax error at rule construction or a
symbol-resolution (unresolved identifier) error at matching — makes
that rule contribute no actions while every rule before and after it is
still processed: the pass output is exactly the output of the prefix
followed by the output of the suffix, and the trace shows the suffix
rules still reached the matcher. -/
theorem C3_per_rule_failure_isolated (m : Matcher) (data : List (String × String)) (f : String)
    (pre suf : List PyVal) (ri : PyVal) (rs : String) (acts : PyVal)
    (hE : extractRule ri = some (rs, acts))
    (hc : containsSub (preprocessRule f).data (preprocessRule rs).data = true)
    (hm : m (preprocessRule rs) (preprocess_data data) = .syntaxError ∨
          m (preprocessRule rs) (preprocess_data data) = .symbolError)
    (hpre : (evalLoop m (preprocess_data data) (preprocessRule f) pre).2.2 = false) :
    evaluate_rules m (some (.vList (pre ++ ri :: suf))) data f =
      evaluate_rules m (some (.vList pre)) data f ++
        evaluate_rules m (some (.vList suf)) data f ∧
    evalTrace m (some (.vList (pre ++ ri :: suf))) data f =
      evalTrace m (some (.vList pre)) data f ++
        preprocessRule rs :: evalTrace m (some (.vList suf)) data f := by
  have happ := evalLoop_append m (preprocess_data data) (preprocessRule f) pre (ri :: suf) hpre
  have hri : evalLoop m (preprocess_data data) (preprocessRule f) (ri :: suf) =
      ((evalLoop m (preprocess_data data) (preprocessRule f) suf).1,
       preprocessRule rs :: (evalLoop m (preprocess_data data) (preprocessRule f) suf).2.1,
       (evalLoop m (preprocess_data data) (preprocessRule f) suf).2.2) := by
    rcases hm with hm | hm <;> simp [evalLoop, hE, hc, hm]
  constructor
  · simp [evaluate_rules, evaluate_rules_full, iterItems, happ, hri]
  · simp [evalTrace, evaluate_rules_full, iterItems, happ, hri]

/-- C6: the substring pre-filter.  Every expression handed to the
matcher contains the preprocessed filter as a substring; consequently a
rule whose preprocessed expression does not contain the preprocessed
filter is never evaluated, regardless of the matcher; and with an empty
filter no rule is skipped by the pre-filter — in a pass with no
evaluator-wide abort, exactly one matcher evaluation happens per rule. -/
theorem C6_prefilter_skip (m : Matcher) (data : List (String × String)) (f : String) (ris : List PyVal) :
    (∀ e ∈ evalTrace m (some (.vList ris)) data f,
       containsSub (preprocessRule f).data e.data = true) ∧
    (∀ rs : String,
       containsSub (preprocessRule f).data (preprocessRule rs).data = false →
       preprocessRule rs ∉ evalTrace m (some (.vList ris)) data f) ∧
    (f = "" → (evaluate_rules_full m (some (.vList ris)) data f).2.2 = false →
       (evalTrace m (some (.vList ris)) data f).length = ris.length) := by
  refine ⟨?_, ?_, ?_⟩
  · intro e he
    exact evalLoop_trace_filtered m (preprocess_data data) (preprocessRule f) ris e
      (by simpa [evalTrace, evaluate_rules_full, iterItems] using he)
  · intro rs hf hmem
    have h1 : containsSub (preprocessRule f).data (preprocessRule rs).data = true := by
      refine evalLoop_trace_filtered m (preprocess_data data) (preprocessRule f) ris _ ?_
      simpa [evalTrace, evaluate_rules_full, iterItems] using hmem
    rw [hf] at h1
    exact Bool.false_ne_true h1
  · intro hf hab
    have hl := evalLoop_trace_len m (preprocess_data data) (preprocessRule f)
      (by rw [hf]; rfl) ris (by simpa [evaluate_rules_full, iterItems] using hab)
    simpa [evalTrace, evaluate_rules_full, iterItems] using hl

/-- C7: `evaluate_rules` is a total function into an action list: with
no rules loaded (`None`) or an empty rule list it returns the empty
list with no error, and when an evaluator-wide failure (here: a
malformed rule entry, the per-rule handlers catch the rest) aborts the
pass mid-way, the call still returns exactly the actions collected
before the failure. -/
theorem C7_pass_robustness (m : Matcher) (data : List (String × String)) (f : String) :
    evaluate_rules m none data f = [] ∧
    evaluate_rules m (some (.vList [])) data f = [] ∧
    (∀ pre suf : List PyVal, ∀ bad : PyVal, extractRule bad = none →
       (evalLoop m (preprocess_data data) (preprocessRule f) pre).2.2 = false →
       evaluate_rules m (some (.vList (pre ++ bad :: suf))) data f =
         evaluate_rules m (some (.vList pre)) data f) := by
  refine ⟨rfl, rfl, ?_⟩
  intro pre suf bad hE hpre
  have happ := evalLoop_append m (preprocess_data data) (preprocessRule f) pre (bad :: suf) hpre
  have hbad : evalLoop m (preprocess_data data) (preprocessRule f) (bad :: suf) =
      ([], [], true) := by
    simp [evalLoop, hE]
  simp [evaluate_rules, evaluate_rules_full, iterItems, happ, hbad]


/-- Witness for C3 at a concrete rule list, matcher and filter. -/
theorem C3_per_rule_failure_isolated_witness :
    evaluate_rules mSyntaxBad
        (some (.vList ([ruleOk "a" "A"] ++ ruleOk "bad" "B" :: [ruleOk "c" "C"]))) [] "" =
      evaluate_rules mSyntaxBad (some (.vList [ruleOk "a" "A"])) [] "" ++
        evaluate_rules mSyntaxBad (some (.vList [ruleOk "c" "C"])) [] "" ∧
    evalTrace mSyntaxBad
        (some (.vList ([ruleOk "a" "A"] ++ ruleOk "bad" "B" :: [ruleOk "c" "C"]))) [] "" =
      evalTrace mSyntaxBad (some (.vList [ruleOk "a" "A"])) [] "" ++
        preprocessRule "bad" :: evalTrace mSyntaxBad (some (.vList [ruleOk "c" "C"])) [] "" :=
  C3_per_rule_failure_isolated mSyntaxBad [] "" [ruleOk "a" "A"] [ruleOk "c" "C"]
    (ruleOk "bad" "B") "bad" (.vList [.vStr "B"]) rfl rfl (Or.inl rfl) rfl

/-- Witness for C6: a rule expression not containing the filter is
absent from the evaluation trace. -/
theorem C6_prefilter_skip_witness :
    preprocessRule "x" ∉ evalTrace mSyntaxBad (some (.vList [ruleOk "a" "A"])) [] "/q" :=
  (C6_prefilter_skip mSyntaxBad [] "/q" [ruleOk "a" "A"]).2.1 "x" rfl

/-- Witness for C7: an abort on a malformed second rule returns the
actions collected from the first. -/
theorem C7_pass_robustness_witness :
    evaluate_rules mSyntaxBad (some (.vList ([ruleOk "a" "A"] ++ badRule :: []))) [] "" =
      evaluate_rules mSyntaxBad (some (.vList [ruleOk "a" "A"])) [] "" :=
  (C7_pass_robustness mSyntaxBad [] "").2.2 [ruleOk "a" "A"] [] badRule rfl rfl


theorem lookupA_updateA_self (l : List (String × String)) (k v : String) :
    lookupA (updateA l k v) k = some v := by
  induction l with
  | nil => simp [updateA, lookupA]
  | cons kv rest ih =>
    obtain ⟨k1, v1⟩ := kv
    by_cases h : k1 = k
    · simp [updateA, lookupA, h]
    · simp [updateA, lookupA, h, ih]

theorem lookupA_updateA_other (l : List (String × String)) {k k2 : String} (v : String)
    (h : ¬ k2 = k) : lookupA (updateA l k v) k2 = lookupA l k2 := by
  have h' : ¬ k = k2 := fun e => h e.symm
  induction l with
  | nil => simp [updateA, lookupA, h']
  | cons kv rest ih =>
    obtain ⟨k1, v1⟩ := kv
    by_cases e1 : k1 = k
    · have e2 : ¬ k1 = k2 := by rw [e1]; exact h'
      simp [updateA, lookupA, e1, e2, h, h']
    · by_cases e2 : k1 = k2
      · simp [updateA, lookupA, e1, e2, h, h']
      · simp [updateA, lookupA, e1, e2, ih]

theorem on_message_messages_cases (m : Matcher) (rules : Option PyVal) (now : String)
    (st : MState) (topic payload : String)
    (h1 : startsWithPy topic "/" = true)
    (h2 : ¬ lookupA st.messages topic = some payload) :
    ∃ st2, on_message m rules now st topic (some payload) = .ok st2 ∧
      (st2.messages = updateA st.messages topic payload ∨
       (lookupA (updateA st.messages topic payload) topic_ping = none ∧
        st2.messages = updateA (updateA st.messages topic payload) topic_ping "\x7b\x7d")) := by
  by_cases hab : (enqueueActions (evaluate_rules m rules (updateA st.messages topic payload) topic)).2 = true
  · exact ⟨_, by simp [on_message, h1, h2, hab]; rfl, Or.inl rfl⟩
  · by_cases hg : startsWithPy topic "/global/" = true
    · exact ⟨_, by simp [on_message, h1, h2, hab, hg]; rfl, Or.inl rfl⟩
    · by_cases hp : (lookupA (updateA st.messages topic payload) topic_ping).isSome = true
      · rcases hlit : pyLiteralEval ((lookupA (updateA st.messages topic payload) topic_ping).getD "") with _ | pd
        · exact ⟨_, by simp [on_message, h1, h2, hab, hg, hp, hlit]; rfl, Or.inl rfl⟩
        · cases pd <;> exact ⟨_, by simp [on_message, h1, h2, hab, hg, hp, hlit]; rfl, Or.inl rfl⟩
      · have hpn : lookupA (updateA st.messages topic payload) topic_ping = none := by
          rcases he : lookupA (updateA st.messages topic payload) topic_ping with _ | v
          · rfl
          · rw [he] at hp
            simp at hp
        rcases hlit : pyLiteralEval ((lookupA (updateA (updateA st.messages topic payload) topic_ping "\x7b\x7d") topic_ping).getD "") with _ | pd
        · exact ⟨_, by simp [on_message, h1, h2, hab, hg, hp, hlit]; rfl, Or.inr ⟨hpn, rfl⟩⟩
        · cases pd <;> exact ⟨_, by simp [on_message, h1, h2, hab, hg, hp, hlit]; rfl, Or.inr ⟨hpn, rfl⟩⟩

/-- C4: the state-store change gate on raw text.  Delivering a payload
equal (as raw text) to the currently stored value for its topic is a
complete no-op: the handler returns with the store, the persistence
queue and the publish queue untouched (so no rule evaluation, dispatch,
persistence or liveness effect ever fires).  The store is updated
exactly when the topic is absent or the new raw value differs. -/
theorem C4_set_change_gate (m : Matcher) (rules : Option PyVal) (now : String) (st : MState)
    (topic payload : String) :
    (lookupA st.messages topic = some payload →
      on_message m rules now st topic (some payload) = .ok st) ∧
    (startsWithPy topic "/" = true → ¬ lookupA st.messages topic = some payload →
      ∃ st2, on_message m rules now st topic (some payload) = .ok st2 ∧
        lookupA st2.messages topic = some payload) := by
  constructor
  · intro h
    by_cases h1 : startsWithPy topic "/" = true
    · simp [on_message, h1, h]
    · simp [on_message, h1]
  · intro h1 h2
    obtain ⟨st2, hok, hcases⟩ := on_message_messages_cases m rules now st topic payload h1 h2
    refine ⟨st2, hok, ?_⟩
    have hself : lookupA (updateA st.messages topic payload) topic = some payload :=
      lookupA_updateA_self st.messages topic payload
    rcases hcases with hm | ⟨hpn, hm⟩
    · rw [hm]
      exact hself
    · have hne : ¬ topic = topic_ping := by
        intro e
        rw [← e, lookupA_updateA_self] at hpn
        exact Option.noConfusion hpn
      rw [hm, lookupA_updateA_other _ _ hne]
      exact hself


theorem isPrefixList_head {p : Char} {ps cs : List Char}
    (h : isPrefixList (p :: ps) cs = true) : isPrefixList [p] cs = true := by
  cases cs with
  | nil => simp [isPrefixList] at h
  | cons c cs2 =>
    simp [isPrefixList] at h ⊢
    exact h.1

theorem startsWithPy_slash_of_global {t : String} (h : startsWithPy t "/global/" = true) :
    startsWithPy t "/" = true := by
  have hd : ("/global/" : String).data = '/' :: ("global/" : String).data := rfl
  unfold startsWithPy at h ⊢
  rw [hd] at h
  exact isPrefixList_head h

/-- C8: a changed message on a reserved `/global/...` topic updates the
store and runs rule evaluation (the publish queue grows by exactly the
actions enqueued from `evaluate_rules`), but performs no persistence
enqueue and no liveness update: the db queue is unchanged and no ping
entry or aggregate publish is produced. -/
theorem C8_global_topic_no_persistence_no_liveness (m : Matcher) (rules : Option PyVal) (now : String) (st : MState)
    (topic payload : String)
    (hg : startsWithPy topic "/global/" = true)
    (h2 : ¬ lookupA st.messages topic = some payload) :
    on_message m rules now st topic (some payload) =
      .ok ⟨updateA st.messages topic payload, st.db_queue,
           st.publish_queue ++
             (enqueueActions
               (evaluate_rules m rules (updateA st.messages topic payload) topic)).1⟩ := by
  have h1 : startsWithPy topic "/" = true := startsWithPy_slash_of_global hg
  by_cases hab : (enqueueActions (evaluate_rules m rules (updateA st.messages topic payload) topic)).2 = true
  · simp [on_message, h1, h2, hab]
  · simp [on_message, h1, h2, hab, hg]

/-- C9: the claim that the intake handler never propagates an exception
fails on the code at the decode step: when `msg.payload.decode()`
raises, the `except` handler evaluates an f-string that references the
still-unbound local `payload`, so `NameError`/`UnboundLocalError`
escapes `on_message`.  After a successful decode the claim holds: every
error is caught and the handler returns normally with the state reached
so far. -/
theorem C9_intake_decode_error_escapes (m : Matcher) (rules : Option PyVal) (now : String) (st : MState)
    (topic : String) :
    on_message m rules now st topic none = .error .nameError ∧
    ∀ payload : String, ∃ st2, on_message m rules now st topic (some payload) = .ok st2 := by
  refine ⟨rfl, ?_⟩
  intro payload
  by_cases h1 : startsWithPy topic "/" = true
  · by_cases h2 : lookupA st.messages topic = some payload
    · exact ⟨st, by simp [on_message, h1, h2]⟩
    · obtain ⟨st2, hok, _⟩ := on_message_messages_cases m rules now st topic payload h1 h2
      exact ⟨st2, hok⟩
  · exact ⟨st, by simp [on_message, h1]⟩

/-- C10: processing a changed non-reserved-topic update never writes
the merged liveness aggregate back into the state store: every stored
entry other than the triggering topic and the ping topic is unchanged;
an existing ping entry keeps its old raw value (the aggregate with the
new device timestamp exists only in the enqueued publish request); and
an absent ping entry is at most initialized to the literal `{}`
(spelled via its code points below). -/
theorem C10_liveness_aggregate_not_stored (m : Matcher) (rules : Option PyVal) (now : String) (st : MState)
    (topic payload : String)
    (h1 : startsWithPy topic "/" = true)
    (hg : startsWithPy topic "/global/" = false)
    (h2 : ¬ lookupA st.messages topic = some payload) :
    ∃ st2, on_message m rules now st topic (some payload) = .ok st2 ∧
      (∀ k, ¬ k = topic → ¬ k = topic_ping →
         lookupA st2.messages k = lookupA st.messages k) ∧
      (∀ v, lookupA st.messages topic_ping = some v →
         lookupA st2.messages topic_ping = some v) ∧
      (lookupA st.messages topic_ping = none →
         lookupA st2.messages topic_ping = none ∨
         lookupA st2.messages topic_ping = some "\x7b\x7d") := by
  obtain ⟨st2, hok, hcases⟩ := on_message_messages_cases m rules now st topic payload h1 h2
  have hptne : ¬ topic_ping = topic := by
    intro e
    have hgp : startsWithPy topic_ping "/global/" = true := rfl
    rw [e] at hgp
    exact Bool.noConfusion (hgp.symm.trans hg)
  refine ⟨st2, hok, ?_, ?_, ?_⟩
  · intro k hk1 hk2
    rcases hcases with hm | ⟨hpn, hm⟩
    · rw [hm, lookupA_updateA_other _ _ hk1]
    · rw [hm, lookupA_updateA_other _ _ hk2, lookupA_updateA_other _ _ hk1]
  · intro v hv
    rcases hcases with hm | ⟨hpn, hm⟩
    · rw [hm, lookupA_updateA_other _ _ hptne, hv]
    · exfalso
      rw [lookupA_updateA_other _ _ hptne, hv] at hpn
      exact Option.noConfusion hpn
  · intro hv
    rcases hcases with hm | ⟨hpn, hm⟩
    · left
      rw [hm, lookupA_updateA_other _ _ hptne, hv]
    · right
      rw [hm, lookupA_updateA_self]


/-- Witness for C4: re-delivering the stored payload is a no-op. -/
theorem C4_set_change_gate_witness :
    on_message mSyntaxBad none "T" ⟨[("/a/b", "5")], [], []⟩ "/a/b" (some "5") =
      .ok ⟨[("/a/b", "5")], [], []⟩ :=
  (C4_set_change_gate mSyntaxBad none "T" ⟨[("/a/b", "5")], [], []⟩ "/a/b" "5").1 rfl

/-- Witness for C8 at a concrete reserved-topic message. -/
theorem C8_global_topic_no_persistence_no_liveness_witness :
    on_message mSyntaxBad none "T" ⟨[], [], []⟩ "/global/x" (some "1") =
      .ok ⟨updateA [] "/global/x" "1", [],
           [] ++ (enqueueActions
             (evaluate_rules mSyntaxBad none (updateA [] "/global/x" "1") "/global/x")).1⟩ :=
  C8_global_topic_no_persistence_no_liveness mSyntaxBad none "T" ⟨[], [], []⟩ "/global/x" "1"
    rfl (by decide)

/-- Witness for C10 at a concrete non-reserved-topic message. -/
theorem C10_liveness_aggregate_not_stored_witness :
    ∃ st2, on_message mSyntaxBad none "T" ⟨[("/k", "0")], [], []⟩ "/a/b" (some "1") = .ok st2 ∧
      (∀ k, ¬ k = "/a/b" → ¬ k = topic_ping →
         lookupA st2.messages k = lookupA (⟨[("/k", "0")], [], []⟩ : MState).messages k) ∧
      (∀ v, lookupA (⟨[("/k", "0")], [], []⟩ : MState).messages topic_ping = some v →
         lookupA st2.messages topic_ping = some v) ∧
      (lookupA (⟨[("/k", "0")], [], []⟩ : MState).messages topic_ping = none →
         lookupA st2.messages topic_ping = none ∨
         lookupA st2.messages topic_ping = some "\x7b\x7d") :=
  C10_liveness_aggregate_not_stored mSyntaxBad none "T" ⟨[("/k", "0")], [], []⟩ "/a/b" "1"
    rfl rfl (by decide)

end AutomatedHome
